import Mathlib

/-!
Verification of the mcpgen schema compiler and the MCP schema provider /
resolver subsystem, shallowly embedded from the Go sources.

The compiler side (`goTypeToJSONSchemaType`, `findEnumValues`,
`extractFieldInfo`, the code-generation template) is embedded from the
mcpgen source.  The runtime resolver & cache is not present in the source
tree (only its tests and the provider interfaces are), so it is modelled
from the specification, as marked on each such definition.
-/

namespace MCPGen

/-- Basic kinds of `go/types`, restricted to the kinds a struct field can
carry that are relevant to `goTypeToJSONSchemaType`.  `uintptr` and the
complex kinds are included because `go/types` classifies them as basic
kinds (and `Uintptr` as an integer kind via `IsInteger`), yet the source's
switch does not list them. -/
inductive BasicKind where
  | bool | int | int8 | int16 | int32 | int64
  | uint | uint8 | uint16 | uint32 | uint64
  | uintptr
  | float32 | float64
  | complex64 | complex128
  | string
  deriving DecidableEq, Repr

/-- The `go/types` package marks a basic kind as an integer kind (`IsInteger` info bit):
all signed and unsigned integer kinds including `uintptr`. -/
def BasicKind.isInteger : BasicKind → Bool
  | .int | .int8 | .int16 | .int32 | .int64
  | .uint | .uint8 | .uint16 | .uint32 | .uint64
  | .uintptr => true
  | _ => false

/-- Shapes of Go types as seen by the generator.  `named` carries the
type's name (used for const matching in `findEnumValues`) and its
right-hand side; `chanT` stands for any shape outside the switch of
`goTypeToJSONSchemaType` (channels, functions, interfaces, ...).  Fixed
size arrays (`arrayT`) are distinct from slices and are not handled by
the switch either. -/
inductive GoType where
  | basic (k : BasicKind)
  | slice (elem : GoType)
  | arrayT (elem : GoType)
  | mapT (key value : GoType)
  | structT
  | pointer (elem : GoType)
  | named (name : String) (rhs : GoType)
  | chanT
  deriving DecidableEq, Repr

/-- Embeds `types.Type.Underlying`: resolves named types to their (never named)
underlying shape; the identity on every other shape. -/
def GoType.underlying : GoType → GoType
  | .named _ rhs => rhs.underlying
  | t => t

/-- Embeds `goTypeToJSONSchemaType`.  The Go source switches on
`t.Underlying()`; here the `named` case unwraps one layer at a time,
which computes the same result.  Basic kinds absent from the inner
switch (`uintptr`, complex kinds) fall through to the final
`return "object"`. -/
def goTypeToJSONSchemaType : GoType → String
  | .named _ rhs => goTypeToJSONSchemaType rhs
  | .basic k =>
    match k with
    | .bool => "boolean"
    | .int | .int8 | .int16 | .int32 | .int64
    | .uint | .uint8 | .uint16 | .uint32 | .uint64 => "integer"
    | .float32 | .float64 => "number"
    | .string => "string"
    | _ => "object"
  | .slice _ => "array"
  | .mapT _ _ => "object"
  | .structT => "object"
  | .pointer elem => goTypeToJSONSchemaType elem
  | .arrayT _ => "object"
  | .chanT => "object"

/-- A package-level constant declaration as `findEnumValues` sees it:
its name, the name of its declared (named) type — `types.Identical` on
two named types holds exactly when they are the same declared type, so
identity is compared by name within one package — and, when the
constant's value has kind `constant.String`, that string value. -/
structure ConstDecl where
  name : String
  typeName : String
  value : Option String
  deriving DecidableEq, Repr

/-- The string values `findEnumValues` collects for a named type from a
package's constant declarations: constants whose declared type is
identical to the named type and whose value is a string literal
(duplicates kept, in declaration-scope order). -/
def collectedConstValues (tyName : String) (consts : List ConstDecl) : List String :=
  consts.foldl (fun acc c =>
    if c.typeName = tyName then
      match c.value with
      | some s => acc ++ [s]
      | none => acc
    else acc) []

/-- Go compares strings lexicographically over their byte sequences;
on the character sequences of the strings involved this is the
lexicographic order on `List Char`.  `sort.Strings` sorts ascending with
respect to this order. -/
def goStrLe (a b : String) : Prop := a.data ≤ b.data

instance : DecidableRel goStrLe :=
  fun a b => inferInstanceAs (Decidable (a.data ≤ b.data))

instance : IsTotal String goStrLe := ⟨fun a b => le_total a.data b.data⟩

instance : IsTrans String goStrLe := ⟨fun _ _ _ h1 h2 => le_trans h1 h2⟩

/-- Embeds `findEnumValues`: only string-underlying named types are
handled; the collected values are sorted (`sort.Strings`, ascending
lexicographic) and returned only when at least 2 were found (the length
check counts the collected list, duplicates included). -/
def findEnumValues (t : GoType) (consts : List ConstDecl) : Option (List String) :=
  match t with
  | .named tyName rhs =>
    if (GoType.named tyName rhs).underlying = .basic .string then
      let values := collectedConstValues tyName consts
      let sorted := values.insertionSort goStrLe
      if 2 ≤ sorted.length then some sorted else none
    else none
  | _ => none

/-- A struct field as the generator sees it, with the two struct-tag
lookups the source performs via `reflect.StructTag.Get` (an external
standard-library routine, modelled as pre-extracted values: `jsonTag`
is `getTagValue(tag, "json")` and `schemaTag` is
`getTagValue(tag, "jsonschema")`; `Get` returns `""` when the key is
absent).  `exported` is `types.Var.Exported()`. -/
structure GoField where
  name : String
  exported : Bool
  type : GoType
  jsonTag : String
  schemaTag : String
  deriving DecidableEq, Repr

/-- Mirrors mcpgen's `FieldInfo`.  `defaultVal` is the raw literal from
the tag (Go field `Default`). -/
structure FieldInfo where
  name : String
  jsonName : String
  type : String
  description : String
  required : Bool
  hasDefault : Bool
  defaultVal : String
  enum : List String
  deriving DecidableEq, Repr

/-- One pass of `strings.Split` over the character sequence for a
single-character separator (the source only ever splits on `","` and
`"|"`): the result always has at least one piece. -/
def splitChars (sep : Char) : List Char → List (List Char)
  | [] => [[]]
  | c :: cs =>
    if c = sep then [] :: splitChars sep cs
    else
      match splitChars sep cs with
      | [] => [[c]]
      | h :: t => (c :: h) :: t

/-- Embeds `strings.Split` for a single-character separator. -/
def goSplit (s : String) (sep : Char) : List String :=
  (splitChars sep s.data).map (fun l => String.mk l)

/-- The first element of a split result; `strings.Split` never returns
an empty slice, so the fallback is irrelevant (this is `parts[0]`). -/
def firstTok (l : List String) : String :=
  match l with
  | [] => ""
  | a :: _ => a

/-- Whitespace for `strings.TrimSpace`, restricted to the ASCII space
characters (Go also trims some non-ASCII unicode spaces, which cannot
occur inside Go struct tags of interest). -/
def isGoSpace (c : Char) : Bool :=
  c = ' ' || c = '\t' || c = '\n' || c = '\r' ||
  c = Char.ofNat 11 || c = Char.ofNat 12

/-- Embeds `strings.TrimSpace`: strip leading and trailing whitespace. -/
def goTrimSpace (s : String) : String :=
  String.mk (((s.data.dropWhile isGoSpace).reverse.dropWhile isGoSpace).reverse)

/-- Embeds `strings.HasPrefix`. -/
def goHasPre (p s : String) : Bool :=
  p.data.isPrefixOf s.data

/-- Embeds `strings.TrimPrefix`: drop `p` from the front of `s` when present. -/
def goTrimPre (p s : String) : String :=
  if p.data.isPrefixOf s.data then String.mk (s.data.drop p.data.length) else s

/-- The fold over the comma-separated `jsonschema` tag directives
performed by `extractFieldInfo`: each part is trimmed and matched
against `required`, `description=`, `default=`, `enum=`; later
directives overwrite earlier ones, unknown directives are ignored.
The accumulator is (required, description, hasDefault, default, enum). -/
def parseSchemaTag (schemaTag : String) :
    Bool × String × Bool × String × List String :=
  (goSplit schemaTag ',').foldl
    (fun acc part =>
      let part := goTrimSpace part
      let (r, d, hd, dv, en) := acc
      if part = "required" then (true, d, hd, dv, en)
      else if goHasPre "description=" part then
        (r, goTrimPre "description=" part, hd, dv, en)
      else if goHasPre "default=" part then
        (r, d, true, goTrimPre "default=" part, en)
      else if goHasPre "enum=" part then
        (r, d, hd, dv, goSplit (goTrimPre "enum=" part) '|')
      else (r, d, hd, dv, en))
    (false, "", false, "", [])

/-- The json-tag block of `extractFieldInfo`: the wire name defaults to
the declared name; a non-empty `json` tag's first comma-separated token
overrides it when non-empty, and the `-` sentinel drops the field
(`none`). -/
def jsonNameOf (field : GoField) : Option String :=
  if field.jsonTag ≠ "" then
    let p0 := firstTok (goSplit field.jsonTag ',')
    if p0 ≠ "-" then some (if p0 ≠ "" then p0 else field.name)
    else none
  else some field.name

/-- Embeds `extractFieldInfo`.  Unexported fields yield no descriptor;
the `json` tag block (`jsonNameOf`) determines the wire name or drops
the field.  The `jsonschema` tag supplies the auxiliary metadata, the
schema type comes from `goTypeToJSONSchemaType`, and when no explicit
enum was given, the field's type is a named type and the schema type is
`string`, enum values are auto-detected from the package's constants
(`consts`). -/
def extractFieldInfo (consts : List ConstDecl) (field : GoField) :
    Option FieldInfo :=
  if !field.exported then none
  else
    match jsonNameOf field with
    | none => none
    | some jn =>
      let (req, desc, hasDef, defv, en) :=
        if field.schemaTag ≠ "" then parseSchemaTag field.schemaTag
        else (false, "", false, "", [])
      let ty := goTypeToJSONSchemaType field.type
      let en :=
        if en.length = 0 ∧ ty = "string" then
          match field.type with
          | .named n rhs =>
            match findEnumValues (.named n rhs) consts with
            | some vs => if 0 < vs.length then vs else en
            | none => en
          | _ => en
        else en
      some { name := field.name, jsonName := jn, type := ty,
             description := desc, required := req, hasDefault := hasDef,
             defaultVal := defv, enum := en }

/-- Embeds the field loop of `findType`: each struct field is passed to
`extractFieldInfo` and only non-`nil` results are appended. -/
def extractFields (consts : List ConstDecl) (fields : List GoField) :
    List FieldInfo :=
  fields.filterMap (extractFieldInfo consts)

/-- A type the generator emits code for: mcpgen's `TypeInfo`. -/
structure TypeInfo where
  name : String
  fields : List FieldInfo
  deriving DecidableEq, Repr

/-- A per-property node of the `jsonschema.Schema` literal the template
emits for one field.  The template guards each optional line with a
truthiness test: `Description` when the string is non-empty,
`Default` when `HasDefault`, `Enum` when the slice is non-empty. -/
structure PropSchema where
  type : String
  description : Option String
  defaultRendered : Option String
  enum : Option (List String)
  deriving DecidableEq, Repr

/-- One character of Go's `%q` escaping; the generator's inputs are
printable characters, for which `%q` escapes exactly the quote and the
backslash (control and non-printable characters, which `%q` would also
escape, do not occur in Go identifiers and tags). -/
def goEscChar (c : Char) : String :=
  if c = '"' then "\\\"" else if c = '\\' then "\\\\" else String.singleton c

/-- Embeds the template's `quote` helper, `fmt.Sprintf("%q", s)`. -/
def goQuote (s : String) : String :=
  "\"" ++ String.join (s.data.map goEscChar) ++ "\""

/-- Embeds the template's `formatDefault` helper: the raw default
literal is wrapped in `json.RawMessage(...)`; string-typed defaults are
quoted once more to make them JSON string literals, the other branches
pass the raw literal through. -/
def formatDefault (f : FieldInfo) : String :=
  if f.type = "string" then
    "json.RawMessage(" ++ goQuote (goQuote f.defaultVal) ++ ")"
  else if f.type = "boolean" ∨ f.type = "integer" ∨ f.type = "number" then
    "json.RawMessage(" ++ goQuote f.defaultVal ++ ")"
  else
    "json.RawMessage(" ++ goQuote f.defaultVal ++ ")"

/-- The property node the template emits for a field. -/
def propOf (f : FieldInfo) : PropSchema :=
  { type := f.type,
    description := if f.description ≠ "" then some f.description else none,
    defaultRendered := if f.hasDefault then some (formatDefault f) else none,
    enum := if f.enum ≠ [] then some f.enum else none }

/-- The `jsonschema.Schema` literal the template emits for a type:
object type, one property per field keyed by wire name (in field
order), the required list collecting the wire names of required fields
(in field order), and `AdditionalProperties` set to the
always-rejecting schema (forbidding undeclared properties). -/
structure GenSchema where
  type : String
  properties : List (String × PropSchema)
  required : List String
  additionalForbidden : Bool
  deriving DecidableEq, Repr

/-- Embeds the schema literal the template renders for a field list. -/
def buildSchema (fields : List FieldInfo) : GenSchema :=
  { type := "object",
    properties := fields.map (fun f => (f.jsonName, propOf f)),
    required := (fields.filter (fun f => f.required)).map (fun f => f.jsonName),
    additionalForbidden := true }

/-- Text the template emits for one field's property entry, with the
leading-whitespace trimming of the `{{-` markers applied. -/
def renderField (f : FieldInfo) : String :=
  "\n\t\t\t" ++ goQuote f.jsonName ++ ": \x7b\n\t\t\t\tType: " ++
  goQuote f.type ++ "," ++
  (if f.description ≠ "" then
    "\n\t\t\t\tDescription: " ++ goQuote f.description ++ "," else "") ++
  (if f.hasDefault then
    "\n\t\t\t\tDefault: " ++ formatDefault f ++ "," else "") ++
  (if f.enum ≠ [] then
    "\n\t\t\t\tEnum: []any\x7b " ++
    String.intercalate ", " (f.enum.map goQuote) ++ " \x7d," else "") ++
  "\n\t\t\t\x7d,"

/-- Text of the required-list entries the template emits: one line per
field whose `Required` flag is set, in field order. -/
def renderRequired (fields : List FieldInfo) : String :=
  String.join ((fields.filter (fun f => f.required)).map
    (fun f => "\n\t\t\t" ++ goQuote f.jsonName ++ ","))

/-- The generated package-level line that resolves the schema with the
error discarded: `_<t>Resolved, _ = _<t>Schema.Resolve(nil)`. -/
def renderResolveLine (t : TypeInfo) : String :=
  "\n\t_" ++ t.name.toLower ++ "Resolved, _ = _" ++ t.name.toLower ++
  "Schema.Resolve(nil)"

/-- Text of one type's generated block up to the resolve line: the
schema variable literal. -/
def renderTypePre (t : TypeInfo) : String :=
  "\n// " ++ t.name ++ " schema variables (generated)\nvar (\n\t_" ++
  t.name.toLower ++ "Schema = &jsonschema.Schema\x7b\n\t\tType: \"object\",\n" ++
  "\t\tProperties: map[string]*jsonschema.Schema\x7b" ++
  String.join (t.fields.map renderField) ++
  "\n\t\t\x7d,\n\t\tRequired: []string\x7b" ++
  renderRequired t.fields ++
  "\n\t\t\x7d,\n\t\tAdditionalProperties: &jsonschema.Schema\x7bNot: &jsonschema.Schema\x7b\x7d\x7d,\n\t\x7d"

/-- Text of one type's generated block after the resolve line: the two
provider method implementations. -/
def renderTypePost (t : TypeInfo) : String :=
  "\n)\n\n// MCPSchema returns the pre-computed JSON schema for " ++
  t.name ++ ".\n// This implements mcp.SchemaProvider.\nfunc (" ++
  t.name ++ ") MCPSchema() *jsonschema.Schema \x7b\n\treturn _" ++
  t.name.toLower ++ "Schema\n\x7d\n\n" ++
  "// MCPResolvedSchema returns the pre-resolved JSON schema for " ++
  t.name ++ ".\n// This implements mcp.ResolvedSchemaProvider.\nfunc (" ++
  t.name ++ ") MCPResolvedSchema() *jsonschema.Resolved \x7b\n\treturn _" ++
  t.name.toLower ++ "Resolved\n\x7d\n"

/-- Text the template emits for one type. -/
def renderTypeBlock (t : TypeInfo) : String :=
  renderTypePre t ++ renderResolveLine t ++ renderTypePost t

/-- Embeds the `hasDefaults` scan of `generate`: whether any requested
type has a field with a default (controls the `encoding/json` import). -/
def hasDefaultsAny (types : List TypeInfo) : Bool :=
  types.any (fun t => t.fields.any (fun f => f.hasDefault))

/-- Text of the whole generated file, the template applied to the
package name and the requested types in request order. -/
def renderFile (pkg : String) (types : List TypeInfo) : String :=
  "// Code generated by mcpgen. DO NOT EDIT.\n\npackage " ++ pkg ++
  "\n\nimport (" ++
  (if hasDefaultsAny types then "\n\t\"encoding/json\"\n" else "") ++
  "\n\t\"github.com/google/jsonschema-go/jsonschema\"\n)\n\n" ++
  String.join (types.map renderTypeBlock) ++ "\n"

/-- Embeds `generate`'s output bytes: the rendered template passed
through `format.Source` (external pretty-printer, modelled as a
parameter); on a formatting failure the unformatted bytes are written
instead. -/
def generateOutput (fmtFn : String → Option String) (pkg : String)
    (types : List TypeInfo) : String :=
  let rendered := renderFile pkg types
  match fmtFn rendered with
  | some formatted => formatted
  | none => rendered

/-- Semantics of the generated package-level binding
`_<t>Resolved, _ = _<t>Schema.Resolve(nil)`: the error of `Resolve`
(an external routine, passed as a parameter) is discarded, the binding
holds the resolved value on success and nil on failure. -/
def genResolvedBinding {D R E : Type} (resolveFn : D → Except E R)
    (doc : D) : Option R :=
  match resolveFn doc with
  | .ok r => some r
  | .error _ => none

/-- Semantics of the generated `MCPResolvedSchema` method: it returns
the package-level resolved binding; its signature carries no error
channel. -/
def genMCPResolvedSchema {D R E : Type} (resolveFn : D → Except E R)
    (doc : D) : Option R :=
  genResolvedBinding resolveFn doc

end MCPGen

namespace MCP

/-- Modelled from the spec: what the Override Protocol offers for a type
identity — nothing, a `SchemaProvider` document (`MCPSchema`), or a
`ResolvedSchemaProvider` document-and-resolved pair (`MCPSchema` and
`MCPResolvedSchema`).  The resolver implementation (`setSchema` /
`globalSchemaCache`) is absent from the source tree; only the provider
interfaces and the resolver's tests are present. -/
inductive ProviderImpl (D R : Type) where
  | noProvider
  | basic (doc : D)
  | resolvedP (doc : D) (res : R)

/-- What one resolve call reports: its typed result, whether run-time
structural reflection was performed, and how many times the external
resolution routine was invoked. -/
structure ResolveOutcome (D R E : Type) where
  result : Except E (D × R)
  reflected : Bool
  resolveCalls : Nat

/-- Modelled from the spec: the Runtime Resolver & Cache step of §4.5
(the `setSchema` / `globalSchemaCache` implementation is absent from the
source tree).  A cache maps type identities to stored
(document, resolved) pairs.  On request: a cached pair is returned
immediately with no recomputation; else a `ResolvedSchemaProvider`
supplies both parts with neither reflection nor the resolution routine
invoked; else a `SchemaProvider` supplies the document and the external
resolution routine is invoked once on it; else the document comes from
run-time structural reflection and the resolution routine is invoked
once.  A successful pair is stored for the type; a failure surfaces the
typed error and leaves the cache unpopulated. -/
def resolveStep {K D R E : Type} [DecidableEq K]
    (provider : K → ProviderImpl D R) (reflectDoc : K → D)
    (resolveFn : D → Except E R)
    (cache : K → Option (D × R)) (t : K) :
    ResolveOutcome D R E × (K → Option (D × R)) :=
  match cache t with
  | some p => (⟨.ok p, false, 0⟩, cache)
  | none =>
    match provider t with
    | .resolvedP doc res =>
      (⟨.ok (doc, res), false, 0⟩,
       fun k => if k = t then some (doc, res) else cache k)
    | .basic doc =>
      match resolveFn doc with
      | .ok r =>
        (⟨.ok (doc, r), false, 1⟩,
         fun k => if k = t then some (doc, r) else cache k)
      | .error e => (⟨.error e, false, 1⟩, cache)
    | .noProvider =>
      match resolveFn (reflectDoc t) with
      | .ok r =>
        (⟨.ok (reflectDoc t, r), true, 1⟩,
         fun k => if k = t then some (reflectDoc t, r) else cache k)
      | .error e => (⟨.error e, true, 1⟩, cache)

/-- Modelled from the spec: resolution of a type succeeds — its provider
path (or the resolution routine on the document that path produces)
yields a result rather than an error. -/
def resolvesOk {K D R E : Type} (provider : K → ProviderImpl D R)
    (reflectDoc : K → D) (resolveFn : D → Except E R) (t : K) : Prop :=
  match provider t with
  | .resolvedP _ _ => True
  | .basic doc => ∃ r, resolveFn doc = .ok r
  | .noProvider => ∃ r, resolveFn (reflectDoc t) = .ok r

/-- How many of the requests in a list perform (non-cached) resolution
work for type `t`: a step counts when it requests `t` while `t` has no
cache entry at that moment. -/
def runWork {K D R E : Type} [DecidableEq K]
    (provider : K → ProviderImpl D R) (reflectDoc : K → D)
    (resolveFn : D → Except E R) :
    List K → (K → Option (D × R)) → K → Nat
  | [], _, _ => 0
  | k :: ks, cache, t =>
    (if k = t ∧ (cache k).isNone then 1 else 0) +
    runWork provider reflectDoc resolveFn ks
      (resolveStep provider reflectDoc resolveFn cache k).2 t

end MCP

namespace MCPGen

lemma goType_toJSON_underlying (t : GoType) :
    goTypeToJSONSchemaType t = goTypeToJSONSchemaType t.underlying := by
  induction t <;> simp [GoType.underlying, goTypeToJSONSchemaType, *]

/-- C6 (amended): the inferred schema type is boolean for bool; integer
for every integer kind except `uintptr`; number for the floating-point
kinds; string for string; array for slices; object for maps and struct
types; for pointers, the type of the element; named types map as their
right-hand sides; every other shape — including `uintptr`, fixed-size
arrays and channel-like shapes — maps to the permissive object
default. -/
theorem goType_schema_mapping :
    goTypeToJSONSchemaType (.basic .bool) = "boolean" ∧
    (∀ k : BasicKind, k.isInteger = true → k ≠ .uintptr →
      goTypeToJSONSchemaType (.basic k) = "integer") ∧
    goTypeToJSONSchemaType (.basic .uintptr) = "object" ∧
    goTypeToJSONSchemaType (.basic .float32) = "number" ∧
    goTypeToJSONSchemaType (.basic .float64) = "number" ∧
    goTypeToJSONSchemaType (.basic .string) = "string" ∧
    (∀ e, goTypeToJSONSchemaType (.slice e) = "array") ∧
    (∀ k v, goTypeToJSONSchemaType (.mapT k v) = "object") ∧
    goTypeToJSONSchemaType .structT = "object" ∧
    (∀ e, goTypeToJSONSchemaType (.pointer e) = goTypeToJSONSchemaType e) ∧
    (∀ n r, goTypeToJSONSchemaType (.named n r) = goTypeToJSONSchemaType r) ∧
    (∀ e, goTypeToJSONSchemaType (.arrayT e) = "object") ∧
    goTypeToJSONSchemaType .chanT = "object" := by
  refine ⟨rfl, ?_, rfl, rfl, rfl, rfl, fun _ => rfl, fun _ _ => rfl, rfl,
    fun _ => rfl, fun _ _ => rfl, fun _ => rfl, rfl⟩
  intro k hk hne
  cases k <;> first
    | rfl
    | (exact absurd rfl hne)
    | (simp [BasicKind.isInteger] at hk)

/-- Witness for the integer-kind conjunct of `goType_schema_mapping` at
a concrete kind. -/
theorem goType_schema_mapping_witness :
    goTypeToJSONSchemaType (.basic .int32) = "integer" :=
  goType_schema_mapping.2.1 .int32 (by decide) (by decide)

/-- C6 counterexample: `uintptr` is an integer kind for `go/types`, yet
`goTypeToJSONSchemaType` maps it to `object`, not `integer`, so the
claim "integer for every integer kind" fails at a `uintptr` field. -/
theorem uintptr_integer_kind_maps_to_object :
    BasicKind.isInteger .uintptr = true ∧
    goTypeToJSONSchemaType (.basic .uintptr) = "object" ∧
    goTypeToJSONSchemaType (.basic .uintptr) ≠ "integer" := by
  refine ⟨rfl, rfl, ?_⟩
  decide

/-- C5 counterexample: two constants of the named string type carrying
the same literal value `"a"` give only 1 distinct value, yet the
compiler attaches the enum `["a", "a"]` to the field — the threshold
counts collected values with multiplicity, not distinct values. -/
theorem enum_attached_without_two_distinct_values :
    Option.map (fun i => i.enum)
      (extractFieldInfo
        [⟨"PriorityA", "Priority", some "a"⟩,
         ⟨"PriorityB", "Priority", some "a"⟩]
        ⟨"Level", true, .named "Priority" (.basic .string), "", ""⟩)
      = some ["a", "a"] ∧
    (["a", "a"] : List String).dedup.length = 1 := by
  constructor
  · rfl
  · decide

/-- C5 (amended): for a named string-underlying type, the compiler
collects the literal string values of the package's constants whose
declared type matches exactly, and attaches them sorted
lexicographically iff at least 2 values were collected, counted with
multiplicity (duplicates are not deduplicated before the threshold
check); with fewer collected values no enum is attached.  A field of
that type with no tags gets exactly that sorted list as its enum. -/
theorem enum_discovery_threshold (tyName : String) (rhs : GoType)
    (consts : List ConstDecl)
    (hs : GoType.underlying (.named tyName rhs) = .basic .string) :
    (2 ≤ (collectedConstValues tyName consts).length →
      ∃ l, findEnumValues (.named tyName rhs) consts = some l ∧
        List.Perm l (collectedConstValues tyName consts) ∧
        List.Sorted goStrLe l) ∧
    ((collectedConstValues tyName consts).length < 2 →
      findEnumValues (.named tyName rhs) consts = none) ∧
    (2 ≤ (collectedConstValues tyName consts).length →
      ∀ nm : String,
        Option.map (fun i => i.enum)
          (extractFieldInfo consts ⟨nm, true, .named tyName rhs, "", ""⟩) =
          some ((collectedConstValues tyName consts).insertionSort goStrLe)) := by
  have hlen : ((collectedConstValues tyName consts).insertionSort goStrLe).length
      = (collectedConstValues tyName consts).length :=
    List.length_insertionSort _ _
  have hstring : goTypeToJSONSchemaType (.named tyName rhs) = "string" := by
    rw [goType_toJSON_underlying, hs]
    rfl
  refine ⟨?_, ?_, ?_⟩
  · intro h2
    refine ⟨(collectedConstValues tyName consts).insertionSort goStrLe, ?_, ?_, ?_⟩
    · simp only [findEnumValues]
      rw [if_pos hs, if_pos (hlen ▸ h2)]
    · exact List.perm_insertionSort _ _
    · exact List.sorted_insertionSort _ _
  · intro h2
    simp only [findEnumValues]
    rw [if_pos hs, if_neg (by omega)]
  · intro h2 nm
    have hfind : findEnumValues (.named tyName rhs) consts
        = some ((collectedConstValues tyName consts).insertionSort goStrLe) := by
      simp only [findEnumValues]
      rw [if_pos hs, if_pos (hlen ▸ h2)]
    have hpos : 0 < ((collectedConstValues tyName consts).insertionSort goStrLe).length := by
      omega
    simp only [extractFieldInfo, hstring, hfind, hpos]
    simp [extractFieldInfo, jsonNameOf, hstring, hfind, hpos]

/-- Witness for `enum_discovery_threshold` at the spec's example of the
three constants `"high"`, `"medium"`, `"low"`, and at a single-constant
package. -/
theorem enum_discovery_threshold_witness :
    (∃ l, findEnumValues (.named "Priority" (.basic .string))
        [⟨"PriorityHigh", "Priority", some "high"⟩,
         ⟨"PriorityMedium", "Priority", some "medium"⟩,
         ⟨"PriorityLow", "Priority", some "low"⟩] = some l ∧
      List.Perm l ["high", "medium", "low"] ∧
      List.Sorted goStrLe l) ∧
    findEnumValues (.named "Priority" (.basic .string))
        [⟨"PriorityOnly", "Priority", some "solo"⟩] = none :=
  ⟨(enum_discovery_threshold "Priority" (.basic .string) _ rfl).1 (by decide),
   (enum_discovery_threshold "Priority" (.basic .string) _ rfl).2.1 (by decide)⟩

/-- C7: every emitted schema forbids undeclared properties, its required
list holds exactly the wire names of the fields marked required — with
no duplicates whenever the descriptor's wire names are unique, and as a
set independent of field declaration order — and every required name is
a key of the properties map. -/
theorem generated_schema_invariants (fields : List FieldInfo) :
    (buildSchema fields).additionalForbidden = true ∧
    (∀ n, n ∈ (buildSchema fields).required ↔
      ∃ f, f ∈ fields ∧ f.required = true ∧ f.jsonName = n) ∧
    ((fields.map (fun f => f.jsonName)).Nodup →
      (buildSchema fields).required.Nodup) ∧
    (∀ n, n ∈ (buildSchema fields).required →
      n ∈ (buildSchema fields).properties.map Prod.fst) ∧
    (∀ fields2, List.Perm fields fields2 →
      List.Perm (buildSchema fields).required (buildSchema fields2).required) := by
  refine ⟨rfl, ?_, ?_, ?_, ?_⟩
  · intro n
    simp [buildSchema, List.mem_filter, and_assoc]
  · intro hnd
    simp only [buildSchema]
    exact hnd.sublist ((List.filter_sublist fields).map (fun f => f.jsonName))
  · intro n hn
    have : ∃ f, f ∈ fields ∧ f.required = true ∧ f.jsonName = n := by
      simpa [buildSchema, List.mem_filter, and_assoc] using hn
    obtain ⟨f, hf, _, hjn⟩ := this
    simp only [buildSchema, List.map_map]
    exact List.mem_map.mpr ⟨f, hf, hjn⟩
  · intro fields2 hp
    exact (hp.filter _).map _

/-- Witness for `generated_schema_invariants` at the spec's end-to-end
example descriptor (required `query`, optional `limit`). -/
theorem generated_schema_invariants_witness :
    (buildSchema
      [⟨"Query", "query", "string", "Search query", true, false, "", []⟩,
       ⟨"Limit", "limit", "integer", "", false, false, "", []⟩]).required.Nodup ∧
    "query" ∈ (buildSchema
      [⟨"Query", "query", "string", "Search query", true, false, "", []⟩,
       ⟨"Limit", "limit", "integer", "", false, false, "", []⟩]).properties.map Prod.fst :=
  ⟨(generated_schema_invariants _).2.2.1 (by decide),
   (generated_schema_invariants _).2.2.2.1 "query" (by decide)⟩

lemma jsonNameOf_sentinel (field : GoField) (htag : field.jsonTag ≠ "")
    (hsent : firstTok (goSplit field.jsonTag ',') = "-") :
    jsonNameOf field = none := by
  simp [jsonNameOf, htag, hsent]

lemma jsonNameOf_eq_some (field : GoField) (jn : String)
    (h : jsonNameOf field = some jn) :
    jn = if field.jsonTag ≠ "" ∧ firstTok (goSplit field.jsonTag ',') ≠ "" then
           firstTok (goSplit field.jsonTag ',')
         else field.name := by
  by_cases htag : field.jsonTag = ""
  · simp [jsonNameOf, htag] at h
    simp [htag, ← h]
  · by_cases hsent : firstTok (goSplit field.jsonTag ',') = "-"
    · simp [jsonNameOf, htag, hsent] at h
    · by_cases hempty : firstTok (goSplit field.jsonTag ',') = ""
      · simp [jsonNameOf, htag, hsent, hempty] at h
        simp [htag, hempty, ← h]
      · simp [jsonNameOf, htag, hsent, hempty] at h
        simp [htag, hempty, ← h]

lemma extractFieldInfo_jsonName (consts : List ConstDecl) (field : GoField)
    (fi : FieldInfo) (hfi : extractFieldInfo consts field = some fi) :
    jsonNameOf field = some fi.jsonName := by
  by_cases hexp : field.exported
  · cases hj : jsonNameOf field with
    | none => simp [extractFieldInfo, hexp, hj] at hfi
    | some jn =>
      simp only [extractFieldInfo, hexp, hj, Bool.not_true,
        Bool.false_eq_true, if_false] at hfi
      rw [← Option.some.inj hfi]
  · simp [extractFieldInfo, hexp] at hfi

/-- C8: unexported fields yield no descriptor; an exported field's wire
name is its declared name unless the json tag's first token is
non-empty, in which case that token; a field whose json tag's first
token is the omit sentinel `-` yields no descriptor and is absent from
the extracted field list. -/
theorem field_extraction_rules (consts : List ConstDecl) (field : GoField) :
    (field.exported = false → extractFieldInfo consts field = none) ∧
    (field.jsonTag ≠ "" → firstTok (goSplit field.jsonTag ',') = "-" →
      extractFieldInfo consts field = none) ∧
    (∀ fi, extractFieldInfo consts field = some fi →
      fi.jsonName =
        if field.jsonTag ≠ "" ∧ firstTok (goSplit field.jsonTag ',') ≠ "" then
          firstTok (goSplit field.jsonTag ',')
        else field.name) ∧
    (∀ rest, (field.exported = false ∨
        (field.jsonTag ≠ "" ∧ firstTok (goSplit field.jsonTag ',') = "-")) →
      extractFields consts (field :: rest) = extractFields consts rest) := by
  have hdropNone : (field.exported = false ∨
      (field.jsonTag ≠ "" ∧ firstTok (goSplit field.jsonTag ',') = "-")) →
      extractFieldInfo consts field = none := by
    rintro (hexp | ⟨htag, hsent⟩)
    · simp [extractFieldInfo, hexp]
    · by_cases hexp : field.exported
      · simp [extractFieldInfo, hexp, jsonNameOf_sentinel field htag hsent]
      · simp [extractFieldInfo, hexp]
  refine ⟨?_, ?_, ?_, ?_⟩
  · intro hexp
    exact hdropNone (Or.inl hexp)
  · intro htag hsent
    exact hdropNone (Or.inr ⟨htag, hsent⟩)
  · intro fi hfi
    exact jsonNameOf_eq_some field fi.jsonName
      (extractFieldInfo_jsonName consts field fi hfi)
  · intro rest hdrop
    simp [extractFields, hdropNone hdrop]

/-- Witness for `field_extraction_rules`: an unexported field and an
omit-tagged field produce nothing; a renaming tag overrides the wire
name. -/
theorem field_extraction_rules_witness :
    extractFieldInfo [] ⟨"secret", false, .basic .string, "", ""⟩ = none ∧
    extractFields [] [⟨"Skip", true, .basic .int, "-", ""⟩] = extractFields [] [] ∧
    (∀ fi, extractFieldInfo [] ⟨"Query", true, .basic .string, "query,omitempty", ""⟩
        = some fi → fi.jsonName = "query") :=
  ⟨(field_extraction_rules [] _).1 rfl,
   (field_extraction_rules [] ⟨"Skip", true, .basic .int, "-", ""⟩).2.2.2 []
     (Or.inr ⟨by decide, by decide⟩),
   fun fi hfi => by
     have h := (field_extraction_rules [] _).2.2.1 fi hfi
     simpa using h⟩

/-- C9: the generated output is a function of the descriptor input —
compiling the same type descriptors (identical package name, identical
request list, same external formatter) yields byte-identical output.
All data driving emission are ordered lists (the template ranges over
slices, never over a map), so the embedding of the whole emission
pipeline is a pure function and nondeterminism has no entry point. -/
theorem generation_deterministic (fmtFn : String → Option String)
    (pkg : String) (ts1 ts2 : List TypeInfo) (h : ts1 = ts2) :
    generateOutput fmtFn pkg ts1 = generateOutput fmtFn pkg ts2 := by
  rw [h]

/-- Witness for `generation_deterministic` at a concrete descriptor. -/
theorem generation_deterministic_witness :
    generateOutput (fun _ => none) "mcp"
      [⟨"SearchInput", [⟨"Query", "query", "string", "Search query", true, false, "", []⟩]⟩] =
    generateOutput (fun _ => none) "mcp"
      [⟨"SearchInput", [⟨"Query", "query", "string", "Search query", true, false, "", []⟩]⟩] :=
  generation_deterministic (fun _ => none) "mcp" _ _ rfl

/-- C10: the generated artifact assigns the package-level resolved
binding with the error of `Resolve` discarded — the rendered block
contains the line `_<t>Resolved, _ = _<t>Schema.Resolve(nil)` — so when
resolution of the generated document fails, the generated
`MCPResolvedSchema` returns nil, and its signature surfaces no error. -/
theorem resolved_binding_discards_error {D R E : Type}
    (resolveFn : D → Except E R) (doc : D) (e : E)
    (h : resolveFn doc = .error e) :
    genMCPResolvedSchema resolveFn doc = none ∧
    (∀ t : TypeInfo, ∃ a b, renderTypeBlock t = a ++ renderResolveLine t ++ b) := by
  constructor
  · simp [genMCPResolvedSchema, genResolvedBinding, h]
  · intro t
    exact ⟨renderTypePre t, renderTypePost t, rfl⟩

/-- Witness for `resolved_binding_discards_error` at a concrete failing
resolution routine. -/
theorem resolved_binding_discards_error_witness :
    genMCPResolvedSchema (fun _ : Nat => (Except.error 7 : Except Nat Nat)) 0 = none :=
  (resolved_binding_discards_error (fun _ : Nat => (Except.error 7 : Except Nat Nat))
    0 7 rfl).1

end MCPGen

namespace MCP

variable {K D R E : Type} [DecidableEq K]
variable {provider : K → ProviderImpl D R} {reflectDoc : K → D}
variable {resolveFn : D → Except E R}

lemma resolveStep_hit (cache : K → Option (D × R)) (t : K) (p : D × R)
    (h : cache t = some p) :
    resolveStep provider reflectDoc resolveFn cache t = (⟨.ok p, false, 0⟩, cache) := by
  unfold resolveStep
  rw [h]

lemma resolveStep_preserves (cache : K → Option (D × R)) (t k : K) (p : D × R)
    (h : cache t = some p) :
    (resolveStep provider reflectDoc resolveFn cache k).2 t = some p := by
  unfold resolveStep
  cases hk : cache k with
  | some q => simpa using h
  | none =>
    have hkt : ¬ t = k := fun he => by rw [he, hk] at h; cases h
    cases provider k with
    | noProvider =>
      cases hr : resolveFn (reflectDoc k) <;> simp [hr, hkt, h]
    | basic doc =>
      cases hr : resolveFn doc <;> simp [hr, hkt, h]
    | resolvedP doc res => simp [hkt, h]

lemma resolveStep_success (cache : K → Option (D × R)) (t : K)
    (hc : cache t = none)
    (hok : resolvesOk provider reflectDoc resolveFn t) :
    ∃ p, (resolveStep provider reflectDoc resolveFn cache t).2 t = some p := by
  unfold resolveStep
  rw [hc]
  unfold resolvesOk at hok
  cases hp : provider t with
  | noProvider =>
    rw [hp] at hok
    obtain ⟨r, hr⟩ := hok
    exact ⟨(reflectDoc t, r), by simp [hr]⟩
  | basic doc =>
    rw [hp] at hok
    obtain ⟨r, hr⟩ := hok
    exact ⟨(doc, r), by simp [hr]⟩
  | resolvedP doc res => exact ⟨(doc, res), by simp⟩

lemma runWork_zero (requests : List K) (cache : K → Option (D × R)) (t : K)
    (p : D × R) (h : cache t = some p) :
    runWork provider reflectDoc resolveFn requests cache t = 0 := by
  induction requests generalizing cache with
  | nil => rfl
  | cons k ks ih =>
    unfold runWork
    rw [ih _ (resolveStep_preserves cache t k p h)]
    by_cases hkt : k = t
    · subst hkt
      simp [h]
    · simp [hkt]

/-- C1: with no cache entry present, a type implementing
`ResolvedSchemaProvider` resolves to its provider's document and
pre-resolved pair with neither reflection nor the resolution routine
invoked; a type implementing only `SchemaProvider` resolves using its
provider's document with the resolution routine invoked exactly once
and no reflection. -/
theorem resolve_provider_dispatch
    (provider : K → ProviderImpl D R) (reflectDoc : K → D)
    (resolveFn : D → Except E R)
    (cache : K → Option (D × R)) (t : K) (hc : cache t = none) :
    (∀ doc res, provider t = .resolvedP doc res →
      resolveStep provider reflectDoc resolveFn cache t =
        (⟨.ok (doc, res), false, 0⟩,
         fun k => if k = t then some (doc, res) else cache k)) ∧
    (∀ doc, provider t = .basic doc →
      (resolveStep provider reflectDoc resolveFn cache t).1.reflected = false ∧
      (resolveStep provider reflectDoc resolveFn cache t).1.resolveCalls = 1 ∧
      (∀ r, resolveFn doc = .ok r →
        resolveStep provider reflectDoc resolveFn cache t =
          (⟨.ok (doc, r), false, 1⟩,
           fun k => if k = t then some (doc, r) else cache k))) := by
  constructor
  · intro doc res hp
    simp [resolveStep, hc, hp]
  · intro doc hp
    refine ⟨?_, ?_, ?_⟩
    · cases hr : resolveFn doc <;> simp [resolveStep, hc, hp, hr]
    · cases hr : resolveFn doc <;> simp [resolveStep, hc, hp, hr]
    · intro r hr
      simp [resolveStep, hc, hp, hr]

/-- Witness for `resolve_provider_dispatch` at concrete providers: a
resolved provider returns its pair with no resolution calls; a basic
provider performs exactly one resolution call. -/
theorem resolve_provider_dispatch_witness :
    resolveStep (fun _ : Nat => ProviderImpl.resolvedP (5 : Nat) (9 : Nat))
        id (fun d => (Except.ok (d + 1) : Except Nat Nat))
        (fun _ => none) 0 =
      (⟨.ok (5, 9), false, 0⟩,
       fun k => if k = 0 then some (5, 9) else none) ∧
    (resolveStep (fun _ : Nat => ProviderImpl.basic (D := Nat) (R := Nat) 5)
        id (fun d => (Except.ok (d + 1) : Except Nat Nat))
        (fun _ => none) 0).1.resolveCalls = 1 :=
  ⟨(resolve_provider_dispatch _ id _ (fun _ => none) 0 rfl).1 5 9 rfl,
   ((resolve_provider_dispatch _ id _ (fun _ => none) 0 rfl).2 5 rfl).2.1⟩

/-- C2: a cached type is returned immediately — the stored pair, no
reflection, no resolution call, cache untouched — and when resolution
of `t` succeeds, at most one request in any request sequence performs
resolution work for `t`, regardless of how often `t` is requested. -/
theorem resolve_cached_at_most_once
    (provider : K → ProviderImpl D R) (reflectDoc : K → D)
    (resolveFn : D → Except E R) (t : K) :
    (∀ cache p, cache t = some p →
      resolveStep provider reflectDoc resolveFn cache t =
        (⟨.ok p, false, 0⟩, cache)) ∧
    (resolvesOk provider reflectDoc resolveFn t →
      ∀ requests cache,
        runWork provider reflectDoc resolveFn requests cache t ≤ 1) := by
  constructor
  · intro cache p h
    exact resolveStep_hit cache t p h
  · intro hok requests
    induction requests with
    | nil => intro cache; exact Nat.zero_le 1
    | cons k ks ih =>
      intro cache
      unfold runWork
      by_cases hkt : k = t
      · subst hkt
        cases hc : cache k with
        | some p =>
          rw [resolveStep_hit cache k p hc]
          simpa [hc] using ih cache
        | none =>
          obtain ⟨p, hp⟩ := resolveStep_success cache k hc hok
          rw [runWork_zero ks _ k p hp]
          simp [hc]
      · simpa [hkt] using ih _

/-- Witness for `resolve_cached_at_most_once`: three repeated requests
for one type with an empty initial cache perform work at most once, and
a pre-populated cache is returned untouched. -/
theorem resolve_cached_at_most_once_witness :
    runWork (fun _ : Nat => ProviderImpl.basic (D := Nat) (R := Nat) 5) id
      (fun d => (Except.ok (d + 1) : Except Nat Nat))
      [0, 0, 0] (fun _ => none) 0 ≤ 1 ∧
    resolveStep (fun _ : Nat => ProviderImpl.basic (D := Nat) (R := Nat) 5) id
      (fun d => (Except.ok (d + 1) : Except Nat Nat))
      (fun _ => some (5, 6)) 0 =
      (⟨.ok (5, 6), false, 0⟩, fun _ => some (5, 6)) :=
  ⟨(resolve_cached_at_most_once
      (fun _ : Nat => ProviderImpl.basic (D := Nat) (R := Nat) 5) id
      (fun d => (Except.ok (d + 1) : Except Nat Nat)) 0).2
      ⟨6, rfl⟩ [0, 0, 0] (fun _ => none),
   (resolve_cached_at_most_once
      (fun _ : Nat => ProviderImpl.basic (D := Nat) (R := Nat) 5) id
      (fun d => (Except.ok (d + 1) : Except Nat Nat)) 0).1
      (fun _ => some (5, 6)) (5, 6) rfl⟩

/-- C3: a failing resolution surfaces its typed error and leaves the
cache exactly as it was — no entry is created for the type — so an
immediately following request for the same type re-attempts the
resolution (one further resolution call) instead of returning a cached
failure.  This holds on the provider-document path and on the
reflection path alike. -/
theorem resolve_failure_not_cached
    (provider : K → ProviderImpl D R) (reflectDoc : K → D)
    (resolveFn : D → Except E R)
    (cache : K → Option (D × R)) (t : K) (hc : cache t = none) :
    (∀ doc e, provider t = .basic doc → resolveFn doc = .error e →
      resolveStep provider reflectDoc resolveFn cache t =
        (⟨.error e, false, 1⟩, cache) ∧
      resolveStep provider reflectDoc resolveFn
          (resolveStep provider reflectDoc resolveFn cache t).2 t =
        (⟨.error e, false, 1⟩, cache)) ∧
    (∀ e, provider t = .noProvider → resolveFn (reflectDoc t) = .error e →
      resolveStep provider reflectDoc resolveFn cache t =
        (⟨.error e, true, 1⟩, cache)) := by
  constructor
  · intro doc e hp hr
    have h1 : resolveStep provider reflectDoc resolveFn cache t =
        (⟨.error e, false, 1⟩, cache) := by
      simp [resolveStep, hc, hp, hr]
    exact ⟨h1, by rw [h1, h1]⟩
  · intro e hp hr
    simp [resolveStep, hc, hp, hr]

/-- Witness for `resolve_failure_not_cached` at a concrete failing
resolution routine: the error is surfaced, the cache stays empty, and
the retry performs a fresh resolution call that fails the same way. -/
theorem resolve_failure_not_cached_witness :
    resolveStep (fun _ : Nat => ProviderImpl.basic (D := Nat) (R := Nat) 5) id
      (fun _ => (Except.error 3 : Except Nat Nat))
      (fun _ => none) 0 =
      (⟨.error 3, false, 1⟩, fun _ => none) :=
  ((resolve_failure_not_cached _ id _ (fun _ => none) 0 rfl).1 5 3 rfl rfl).1

end MCP
